import Mathlib

/-!
Verification of the qpipe/emitter dataflow engine.

The engine (modules `emitter/emitter.py` and `qpipe/qpipe.py`, verbatim
duplicates) wires user nodes into a directed graph; each node owns worker
units, an ordered list of input queues and an ordered list of output queues,
and distributes emitted values round-robin over its output queues.  This file
is a shallow embedding of that engine: Python object state becomes explicit
Lean state, queues become lists (front = oldest), and the recursive graph
walks become fuel-indexed recursions.
-/

namespace QPipe

/-! ## Emit-side node state (`Emitter.emit`)

`_output_queues` is the ordered list of outbound queues (we keep only the
queue contents; the peer node is irrelevant to `emit`), `_next_output_queue_index`
is the round-robin cursor, `_results` is the optional shared result sink
(present only on the node designated by `results()`). -/

structure EmitState (α : Type) where
  outputQueues : List (List α)
  nextOutputQueueIndex : Nat
  results : Option (List α)

/-- Append value `v` at the back of the `i`-th queue; out-of-range `i` leaves
the list unchanged (the engine never indexes out of range). -/
def pushAt : List (List α) → Nat → α → List (List α)
  | [], _, _ => []
  | q :: qs, 0, v => (q ++ [v]) :: qs
  | q :: qs, n + 1, v => q :: pushAt qs n v

/-- Embeds `Emitter.emit(value)`: if there are output queues, put the value on the
queue at the round-robin cursor and advance the cursor, resetting it to 0 once
it reaches the queue count; if this node carries the shared result sink,
additionally append the value there. -/
def emit (s : EmitState α) (value : α) : EmitState α :=
  let s1 :=
    if 0 < s.outputQueues.length then
      let idx := s.nextOutputQueueIndex
      let next := if s.outputQueues.length ≤ idx + 1 then 0 else idx + 1
      { s with
        outputQueues := pushAt s.outputQueues idx value
        nextOutputQueueIndex := next }
    else s
  match s1.results with
  | some rs => { s1 with results := some (rs ++ [value]) }
  | none => s1

/-- Emit each element of a list in order (e.g. a loop of `emit` calls). -/
def emitAll (s : EmitState α) (vs : List α) : EmitState α :=
  vs.foldl emit s

/-! ## The two concrete nodes of the tested pipeline (`tools.Iter`, `tools.Fn`)
and the dummy-backend execution of `Iter(S).into(Fn(f)).results()`. -/

/-- Embeds `Iter.setup`: emit every element of the constructor iterable, in order. -/
def iterSetup (S : List α) (s : EmitState α) : EmitState α :=
  emitAll s S

/-- Embeds `Fn.do`: emit `f x` for the incoming value `x`. -/
def fnDo (f : α → β) (s : EmitState β) (x : α) : EmitState β :=
  emit s (f x)

/-- One consume pass of the worker loop over a drained queue content `xs`,
invoking `Fn.do` on each value in FIFO order. -/
def fnDrain (f : α → β) (xs : List α) (s : EmitState β) : EmitState β :=
  xs.foldl (fnDo f) s

/-- Dummy-backend run of `Iter(S).into(Fn(f)).results()`.

`results()` resolves the terminal node (the `Fn` node: it has no output
queues), gives it a fresh empty result sink, and starts the flow.
`_start_operating` on the `Fn` node first drives the upstream `Iter` node:
its dummy worker runs to completion synchronously — `setup` emits all of `S`
into the single connecting queue (the `Iter` node is not the collector, so
its `_results` is `none`), it has no inputs so its loop ends after one pass
and its completion flag is set.  Then the `Fn` worker runs: its first pass
sees the upstream complete, drains the queue front-to-back applying `do`,
then tears down.  The returned value is the `Fn` node's result sink. -/
def dummyPipelineResults (f : α → β) (S : List α) : Option (List β) :=
  let src : EmitState α := ⟨[[]], 0, none⟩
  let srcAfter := iterSetup S src
  let queue := srcAfter.outputQueues.headD []
  let fn : EmitState β := ⟨[], 0, some []⟩
  let fnAfter := fnDrain f queue fn
  fnAfter.results

/-! ## Backend configuration (`config.py`)

The module-global `_backend` is an `Option String` (`none` = Python `None`).
`_initialize` runs once at import: it returns early when `_backend` is already
truthy, otherwise sources the value from the `EMITTER_BACKEND` environment
variable (defaulting to `"multiprocessing"` when unset) and raises a
`RuntimeError` when the sourced value is not in the enumerated set.  Note the
assignment to `_backend` happens before the membership check, so on a raise the
global retains the invalid value; that is observable only if the exception is
caught, and the `Except` model below keeps just the raise. -/

def validBackends : List String :=
  ["threading", "multiprocessing", "dummy"]

/-- Python truthiness of the `_backend` global: `None` and `""` are falsy. -/
def truthy : Option String → Bool
  | none => false
  | some s => !s.isEmpty

/-- Embeds `config._initialize`, as a function of the current `_backend` global and
the `EMITTER_BACKEND` environment value (`none` = unset).  Returns the new
`_backend` global, or the `RuntimeError` message. -/
def initBackend (currentBackend envValue : Option String) :
    Except String (Option String) :=
  if truthy currentBackend then Except.ok currentBackend
  else
    let b := envValue.getD "multiprocessing"
    if validBackends.contains b then Except.ok (some b)
    else Except.error ("Emitter backend is not valid: " ++ b)

/-- Embeds `config.set_backend`: stores the value unconditionally; it has no
validation and no raise path. -/
def set_backend (currentBackend : Option String) (value : String) :
    Except String (Option String) :=
  Except.ok (some value)

/-! ## Graph-level state and the main-thread operations

Nodes are identified by natural numbers.  Per node we keep the
`_started_operating` flag, the ordered `_input_queues` (queue id paired with
the upstream node, `none` when the entry is unbound) and the ordered
`_output_queues` (queue id paired with the downstream node).  `nextLink`
numbers freshly created queues, so "creates a new queue" is visible as a
fresh id shared by both endpoint lists. -/

structure PGraph where
  started : Nat → Bool
  inputs : Nat → List (Nat × Option Nat)
  outputs : Nat → List (Nat × Nat)
  nextLink : Nat

/-- Point update of a node-indexed table. -/
def updFn (f : Nat → β) (k : Nat) (v : β) : Nat → β :=
  fun m => if m = k then v else f m

/-- Embeds `Emitter.infrom(upstream)` called on node `self`: raise if `self` has
already started; otherwise create one fresh queue, append it to `self`'s
input list and to `upstream`'s output list, and return `upstream`.  The
triple is (raised error, post-state, returned node — `none` when raised). -/
def infrom (g : PGraph) (self upstream : Nat) :
    Option String × PGraph × Option Nat :=
  if g.started self then
    (some "You cannot change an emitter flow once it is running", g, none)
  else
    let l := g.nextLink
    let g1 := { g with inputs := updFn g.inputs self (g.inputs self ++ [(l, some upstream)]) }
    let g2 := { g1 with outputs := updFn g1.outputs upstream (g1.outputs upstream ++ [(l, self)]) }
    (none, { g2 with nextLink := l + 1 }, some upstream)

/-- Embeds `Emitter.into(input_target)` called on node `self`: delegates to
`input_target.infrom(self)` (whose raise propagates) and returns
`input_target`. -/
def into (g : PGraph) (self target : Nat) :
    Option String × PGraph × Option Nat :=
  let r := infrom g target self
  (r.1, r.2.1, if r.1.isNone then some target else none)

/-- Embeds `Emitter._start_operating`: return if the node's flag is already set;
otherwise set it, recurse into every bound upstream node, start this node's
workers (not part of the graph state), then recurse into every downstream
node.  The recursion depth is bounded by `fuel`; the Python original has no
such bound and relies on the graph being finite. -/
def startOperating : Nat → PGraph → Nat → PGraph
  | 0, g, _ => g
  | fuel + 1, g, n =>
    if g.started n then g
    else
      let g1 := { g with started := updFn g.started n true }
      let g2 := (g1.inputs n).foldl
        (fun acc e =>
          match e.2 with
          | some m => startOperating fuel acc m
          | none => acc) g1
      (g2.outputs n).foldl (fun acc e => startOperating fuel acc e.2) g2

/-- Embeds `Emitter.start()` on node `n`: raise when `n` has already started,
otherwise run `_start_operating`.  The pair is (raised error, post-state). -/
def start (fuel : Nat) (g : PGraph) (n : Nat) : Option String × PGraph :=
  if g.started n then
    (some "You cannot start an emitter flow that has already been run", g)
  else
    (none, startOperating fuel g n)

/-- Embeds `Emitter.results()` on node `n`, graph-level effect: raise when `n` has
already started; otherwise designate the terminal node's result sink (a
value-level effect, modelled by `dummyPipelineResults`) and run `execute()`,
whose graph-level effect is `start()`'s `_start_operating`. -/
def resultsCall (fuel : Nat) (g : PGraph) (n : Nat) : Option String × PGraph :=
  if g.started n then
    (some "You cannot start an emitter flow that has already been run", g)
  else
    (none, startOperating fuel g n)

/-- Embeds `Emitter._result_emitter`: a node with no output queues resolves to
itself, otherwise recurse on the node attached to output queue index 0.
`fuel` bounds the recursion; `none` means the chain did not bottom out. -/
def resultEmitter (g : PGraph) : Nat → Nat → Option Nat
  | 0, _ => none
  | fuel + 1, n =>
    match g.outputs n with
    | [] => some n
    | (_, m) :: _ => resultEmitter g fuel m

/-- The spec's description of terminal resolution, as a relation: the node
reached from `n` by repeatedly following the node attached to outbound link
index 0 until a node with no outbound links is reached; a node with no
outbound links resolves to itself. -/
inductive ReachesTerminal (g : PGraph) : Nat → Nat → Prop
  | here (n : Nat) : g.outputs n = [] → ReachesTerminal g n n
  | step (n m t : Nat) (l : Nat) (rest : List (Nat × Nat)) :
      g.outputs n = (l, m) :: rest → ReachesTerminal g m t →
      ReachesTerminal g n t

/-! ## Worker construction and node completion (`Emitter.__init__`,
`Emitter._output_complete`) -/

/-- One worker unit; `flagSet` is its `_output_complete_event`. -/
structure WorkerSlot where
  flagSet : Bool
  deriving DecidableEq

/-- Worker creation in `Emitter.__init__`: the reserved option `processes`
defaults to 1 when absent; the loop `for i in range(processes)` creates that
many workers, each with an unset completion event.  No value of `processes`
is rejected; `range(0)` simply creates none. -/
def emitterInit (processes : Option Nat) : List WorkerSlot :=
  List.replicate (processes.getD 1) { flagSet := false }

/-- Embeds `Emitter._output_complete`: false as soon as one worker's completion
event is unset, true otherwise (vacuously true with no workers). -/
def outputComplete (ws : List WorkerSlot) : Bool :=
  ws.all (fun w => w.flagSet)

/-! ## The shared worker run loop (`_EmitterThread.run`, `_EmitterProcess.run`,
`_EmitterDummy.start`)

All three backends run the identical loop; we model one worker's execution as
the trace of events it performs.  The environment of one loop pass — what the
worker observes when it polls the upstream completion flags, and what it pops
from its input queues — is an `IterObs`; the worker is driven by a list of
these, one per pass (the list running out before the loop exits models a
still-running worker, giving a trace without `teardown`/`setFlag`). -/

/-- What one pass of the loop observes: `ups` is, per input queue, the polled
value of the bound upstream's `_output_complete()` (entries for unbound
queues are ignored, as the code skips them), and `drained` is, per input
queue, the values popped by the non-blocking drain of that pass. -/
structure IterObs (α : Type) where
  ups : List Bool
  drained : List (List α)

/-- The loop's completion poll: `all_inputs_complete` is true unless some
input queue is bound (`bound` entry true) to an upstream that reported
incomplete.  Unbound entries never block. -/
def allInputsComplete (bound ups : List Bool) : Bool :=
  (List.zip bound ups).all fun p => !p.1 || p.2

/-- One worker event. `observe` records the polled upstream flags of a pass,
`drain` the per-queue values consumed by the pass (in queue registration
order), `backoff` the 10 ms sleep of a pass that found upstreams incomplete,
`teardown` the teardown hook, `setFlag` the setting of the worker's
completion event. -/
inductive Event (α : Type) where
  | setup : Event α
  | observe : List Bool → Event α
  | drain : List (List α) → Event α
  | backoff : Event α
  | teardown : Event α
  | setFlag : Event α
  deriving DecidableEq

/-- The `while True` loop: each pass polls completion, drains every input
queue in registration order, then either exits (teardown, flag) or sleeps
and repeats.  `bound` has one entry per input queue: whether the queue is
bound to an upstream node. -/
def loopTrace (bound : List Bool) : List (IterObs α) → List (Event α)
  | [] => []
  | obs :: rest =>
    Event.observe obs.ups :: Event.drain (obs.drained.take bound.length) ::
      (if allInputsComplete bound obs.ups then [Event.teardown, Event.setFlag]
       else Event.backoff :: loopTrace bound rest)

/-- A worker's `run`: the setup hook, then the loop; on exit the teardown
hook runs and the worker's completion event is set (the process backend also
flushes its output queues between the two — not an input-side event). -/
def workerRun (bound : List Bool) (obss : List (IterObs α)) : List (Event α) :=
  Event.setup :: loopTrace bound obss

/-! ## Lemmas about `emit` -/

theorem pushAt_length (qs : List (List α)) (i : Nat) (v : α) :
    (pushAt qs i v).length = qs.length := by
  induction qs generalizing i with
  | nil => rfl
  | cons q qs ih =>
    cases i with
    | zero => rfl
    | succ n => simp [pushAt, ih]

theorem emit_outputQueues_pos (s : EmitState α) (v : α)
    (h : 0 < s.outputQueues.length) :
    (emit s v).outputQueues = pushAt s.outputQueues s.nextOutputQueueIndex v := by
  unfold emit
  rw [if_pos h]
  cases hr : s.results <;> simp [hr]

theorem emit_outputQueues_nil (s : EmitState α) (v : α)
    (h : s.outputQueues = []) :
    (emit s v).outputQueues = [] := by
  unfold emit
  rw [if_neg (by simp [h])]
  cases hr : s.results <;> simp [hr, h]

theorem emit_cursor (s : EmitState α) (v : α)
    (h0 : 0 < s.outputQueues.length)
    (h : s.nextOutputQueueIndex < s.outputQueues.length) :
    (emit s v).nextOutputQueueIndex
      = (s.nextOutputQueueIndex + 1) % s.outputQueues.length := by
  unfold emit
  rw [if_pos h0]
  rcases Nat.lt_or_ge (s.nextOutputQueueIndex + 1) s.outputQueues.length with hlt | hge
  · cases hr : s.results <;>
      simp [hr, Nat.not_le.mpr hlt, Nat.mod_eq_of_lt hlt]
  · have heq : s.nextOutputQueueIndex + 1 = s.outputQueues.length := by omega
    cases hr : s.results <;> simp [hr, heq, Nat.mod_self]

theorem emit_results_eq (s : EmitState α) (v : α) :
    (emit s v).results = Option.map (fun rs => rs ++ [v]) s.results := by
  unfold emit
  by_cases h : 0 < s.outputQueues.length
  · rw [if_pos h]; cases hr : s.results <;> simp [hr]
  · rw [if_neg h]; cases hr : s.results <;> simp [hr]

theorem emit_queues_length (s : EmitState α) (v : α) :
    (emit s v).outputQueues.length = s.outputQueues.length := by
  by_cases h : 0 < s.outputQueues.length
  · rw [emit_outputQueues_pos s v h, pushAt_length]
  · have hnil : s.outputQueues = [] := by
      cases hq : s.outputQueues with
      | nil => rfl
      | cons a l => rw [hq] at h; simp at h
    rw [emit_outputQueues_nil s v hnil, hnil]

theorem emitAll_queues_length (s : EmitState α) (vs : List α) :
    (emitAll s vs).outputQueues.length = s.outputQueues.length := by
  induction vs generalizing s with
  | nil => rfl
  | cons x xs ih =>
    show (emitAll (emit s x) xs).outputQueues.length = _
    rw [ih, emit_queues_length]

theorem emitAll_cursor (s : EmitState α) (vs : List α)
    (h0 : 0 < s.outputQueues.length)
    (h : s.nextOutputQueueIndex < s.outputQueues.length) :
    (emitAll s vs).nextOutputQueueIndex
      = (s.nextOutputQueueIndex + vs.length) % s.outputQueues.length := by
  induction vs generalizing s with
  | nil =>
    show s.nextOutputQueueIndex
      = (s.nextOutputQueueIndex + ([] : List α).length) % s.outputQueues.length
    rw [List.length_nil, Nat.add_zero, Nat.mod_eq_of_lt h]
  | cons x xs ih =>
    show (emitAll (emit s x) xs).nextOutputQueueIndex = _
    have h0' : 0 < (emit s x).outputQueues.length := by
      rw [emit_queues_length]; exact h0
    have h' : (emit s x).nextOutputQueueIndex < (emit s x).outputQueues.length := by
      rw [emit_queues_length, emit_cursor s x h0 h]
      exact Nat.mod_lt _ h0
    rw [ih (emit s x) h0' h', emit_queues_length, emit_cursor s x h0 h,
      Nat.mod_add_mod, List.length_cons]
    congr 1
    omega

theorem iterSetup_single_queue (S q : List α) :
    iterSetup S ⟨[q], 0, none⟩ = ⟨[q ++ S], 0, none⟩ := by
  induction S generalizing q with
  | nil => simp [iterSetup, emitAll]
  | cons x xs ih =>
    show emitAll (emit ⟨[q], 0, none⟩ x) xs = _
    have hstep : emit (⟨[q], 0, none⟩ : EmitState α) x = ⟨[q ++ [x]], 0, none⟩ := by
      simp [emit, pushAt]
    rw [hstep]
    have := ih (q ++ [x])
    simp only [iterSetup] at this
    rw [this]
    simp

theorem fnDrain_collects (f : α → β) (xs : List α) (rs : List β) :
    fnDrain f xs ⟨[], 0, some rs⟩ = ⟨[], 0, some (rs ++ xs.map f)⟩ := by
  induction xs generalizing rs with
  | nil => simp [fnDrain]
  | cons x l ih =>
    show fnDrain f l (fnDo f ⟨[], 0, some rs⟩ x) = _
    have hstep : fnDo f (⟨[], 0, some rs⟩ : EmitState β) x
        = ⟨[], 0, some (rs ++ [f x])⟩ := by
      simp [fnDo, emit]
    rw [hstep, ih]
    simp

theorem pipeline_map_general (f : α → β) (S : List α) :
    dummyPipelineResults f S = some (S.map f) := by
  show (fnDrain f ((iterSetup S ⟨[[]], 0, none⟩).outputQueues.headD [])
      ⟨[], 0, some []⟩).results = some (S.map f)
  rw [iterSetup_single_queue]
  simp only [List.nil_append, List.headD_cons]
  rw [fnDrain_collects]
  simp

/-- C2: piping a finite sequence `S` through a source feeding a single-worker
transform that emits `f x` for each input `x` and collecting with `results()`
(dummy backend) yields exactly `S.map f` in arrival order; in particular the
identity transform returns `S` unchanged and squaring `[1, 2, 3]` gives
`[1, 4, 9]`. -/
theorem pipeline_map_results (f : α → β) (S : List α) :
    dummyPipelineResults f S = some (S.map f)
    ∧ dummyPipelineResults (fun x : α => x) S = some S
    ∧ dummyPipelineResults (fun x : Nat => x * x) [1, 2, 3] = some [1, 4, 9] := by
  refine ⟨pipeline_map_general f S, ?_, by decide⟩
  rw [pipeline_map_general (fun x : α => x) S]
  simp

/-- C3: counting emits from a cursor at 0 on a node with `k ≥ 1` outbound
queues, the `i`-th `emit` pushes its value onto queue `i % k` and leaves the
cursor at `(i + 1) % k`; with no outbound queues `emit` pushes to no queue;
if the node carries the result sink the value is additionally appended
there. -/
theorem emit_round_robin (qs : List (List α)) (rs0 : Option (List α))
    (vs : List α) (v : α) (hk : 0 < qs.length) :
    (emitAll ⟨qs, 0, rs0⟩ vs).nextOutputQueueIndex = vs.length % qs.length
    ∧ (emit (emitAll ⟨qs, 0, rs0⟩ vs) v).outputQueues
        = pushAt (emitAll ⟨qs, 0, rs0⟩ vs).outputQueues (vs.length % qs.length) v
    ∧ (emit (emitAll ⟨qs, 0, rs0⟩ vs) v).nextOutputQueueIndex
        = (vs.length + 1) % qs.length
    ∧ (∀ t : EmitState α, t.outputQueues = [] → (emit t v).outputQueues = [])
    ∧ (∀ (t : EmitState α) (rs : List α), t.results = some rs →
        (emit t v).results = some (rs ++ [v])) := by
  have hlen : (emitAll ⟨qs, 0, rs0⟩ vs).outputQueues.length = qs.length :=
    emitAll_queues_length _ _
  have hcur : (emitAll ⟨qs, 0, rs0⟩ vs).nextOutputQueueIndex = vs.length % qs.length := by
    have := emitAll_cursor (⟨qs, 0, rs0⟩ : EmitState α) vs hk hk
    simpa using this
  have h0' : 0 < (emitAll ⟨qs, 0, rs0⟩ vs).outputQueues.length := by rw [hlen]; exact hk
  refine ⟨hcur, ?_, ?_, ?_, ?_⟩
  · rw [emit_outputQueues_pos _ _ h0', hcur]
  · have h' : (emitAll ⟨qs, 0, rs0⟩ vs).nextOutputQueueIndex
        < (emitAll ⟨qs, 0, rs0⟩ vs).outputQueues.length := by
      rw [hlen, hcur]; exact Nat.mod_lt _ hk
    rw [emit_cursor _ _ h0' h', hlen, hcur, Nat.mod_add_mod]
  · intro t ht; exact emit_outputQueues_nil t v ht
  · intro t rs ht; rw [emit_results_eq, ht]; rfl

/-- Witness for `emit_round_robin`: two queues, three prior emits, the third
emit lands on queue `3 % 2 = 1` and the cursor ends at `4 % 2 = 0`. -/
theorem emit_round_robin_witness :
    0 < [([] : List Nat), []].length
    ∧ (emitAll ⟨[([] : List Nat), []], 0, none⟩ [1, 2, 3]).nextOutputQueueIndex
        = [1, 2, 3].length % [([] : List Nat), []].length := by
  exact ⟨by decide, (emit_round_robin [[], []] none [1, 2, 3] 9 (by decide)).1⟩

/-! ## Graph wiring and driver theorems -/

/-- C6: for nodes `a`, `b` not yet started, `b.infrom(a)` creates exactly one
new queue, appends it to `b`'s input list and to `a`'s output list, leaves
every other list and every started flag unchanged, and returns `a`; and
`a.into(b)` performs exactly `b.infrom(a)` and returns `b`. -/
theorem infrom_into_wiring (g : PGraph) (a b : Nat)
    (hb : g.started b = false) (ha : g.started a = false) :
    (infrom g b a).1 = none
    ∧ (infrom g b a).2.2 = some a
    ∧ ((infrom g b a).2.1).inputs b = g.inputs b ++ [(g.nextLink, some a)]
    ∧ ((infrom g b a).2.1).outputs a = g.outputs a ++ [(g.nextLink, b)]
    ∧ (∀ m, m ≠ b → ((infrom g b a).2.1).inputs m = g.inputs m)
    ∧ (∀ m, m ≠ a → ((infrom g b a).2.1).outputs m = g.outputs m)
    ∧ ((infrom g b a).2.1).started = g.started
    ∧ ((infrom g b a).2.1).nextLink = g.nextLink + 1
    ∧ (into g a b).1 = (infrom g b a).1
    ∧ (into g a b).2.1 = (infrom g b a).2.1
    ∧ (into g a b).2.2 = some b := by
  have hguard : ¬(g.started b = true) := by rw [hb]; exact Bool.false_ne_true
  refine ⟨?_, ?_, ?_, ?_, ?_, ?_, ?_, ?_, ?_, ?_, ?_⟩ <;>
    simp [infrom, into, hguard, updFn]
  · intro m hm; simp [hm]
  · intro m hm; simp [hm]

/-- Witness for `infrom_into_wiring` on a fresh two-node graph. -/
theorem infrom_into_wiring_witness :
    (⟨fun _ => false, fun _ => [], fun _ => [], 0⟩ : PGraph).started 1 = false
    ∧ (infrom (⟨fun _ => false, fun _ => [], fun _ => [], 0⟩ : PGraph) 1 0).1 = none := by
  exact ⟨rfl, (infrom_into_wiring ⟨fun _ => false, fun _ => [], fun _ => [], 0⟩ 0 1 rfl rfl).1⟩

/-- A one-node pipeline that has already started (node 0), with node 1 a
fresh unstarted node outside it. -/
def sampleStartedGraph : PGraph :=
  ⟨fun n => n == 0, fun _ => [], fun _ => [], 0⟩

/-- C4 counterexample: `into` invoked on node 0 — a node of an
already-started pipeline — with a not-yet-started target raises no error and
mutates the graph (a new outbound queue appears on the started node). -/
theorem into_started_node_no_error :
    sampleStartedGraph.started 0 = true
    ∧ sampleStartedGraph.outputs 0 = []
    ∧ (into sampleStartedGraph 0 1).1 = none
    ∧ ((into sampleStartedGraph 0 1).2.1).outputs 0 = [(0, 1)] := by
  refine ⟨rfl, rfl, ?_, ?_⟩ <;> simp [into, infrom, sampleStartedGraph, updFn]

/-- C4 (amended): once a node's started flag is set — as it is for every node
of a pipeline that has started — `infrom` on it raises the invalid-state
error without mutating the graph; `into` raises it whenever its *target* has
started; and `start()`/`results()` on a started node raise it without
mutating the graph. -/
theorem started_guard_errors (fuel : Nat) (g : PGraph) (a b : Nat)
    (ha : g.started a = true) :
    (infrom g a b).1 = some "You cannot change an emitter flow once it is running"
    ∧ (infrom g a b).2.1 = g
    ∧ (infrom g a b).2.2 = none
    ∧ (into g b a).1 = some "You cannot change an emitter flow once it is running"
    ∧ (into g b a).2.1 = g
    ∧ (into g b a).2.2 = none
    ∧ start fuel g a = (some "You cannot start an emitter flow that has already been run", g)
    ∧ resultsCall fuel g a
        = (some "You cannot start an emitter flow that has already been run", g) := by
  refine ⟨?_, ?_, ?_, ?_, ?_, ?_, ?_, ?_⟩ <;>
    simp [infrom, into, start, resultsCall, ha]

/-- Witness for `started_guard_errors` on the sample started graph. -/
theorem started_guard_errors_witness :
    sampleStartedGraph.started 0 = true
    ∧ (infrom sampleStartedGraph 0 1).1
        = some "You cannot change an emitter flow once it is running" := by
  exact ⟨rfl, (started_guard_errors 5 sampleStartedGraph 0 1 rfl).1⟩

theorem resultEmitter_sound (g : PGraph) (fuel n t : Nat)
    (h : resultEmitter g fuel n = some t) : ReachesTerminal g n t := by
  induction fuel generalizing n with
  | zero => simp [resultEmitter] at h
  | succ fuel ih =>
    rw [resultEmitter] at h
    cases hout : g.outputs n with
    | nil =>
      rw [hout] at h
      simp at h
      exact h ▸ ReachesTerminal.here n hout
    | cons e rest =>
      rw [hout] at h
      exact ReachesTerminal.step n e.2 t e.1 rest hout (ih e.2 h)

theorem resultEmitter_complete (g : PGraph) (n t : Nat)
    (h : ReachesTerminal g n t) : ∃ fuel, resultEmitter g fuel n = some t := by
  induction h with
  | here n hout => exact ⟨1, by rw [resultEmitter, hout]⟩
  | step n m t l rest hout _ ih =>
    obtain ⟨fuel, hf⟩ := ih
    exact ⟨fuel + 1, by rw [resultEmitter, hout]; exact hf⟩

/-- C5: the terminal node computed by `_result_emitter` (used by `execute()`
and `results()`) is exactly the node reached by repeatedly following the node
attached to outbound queue index 0 until a node with no outbound queues is
reached, and a node with no outbound queues resolves to itself. -/
theorem resultEmitter_terminal_spec (g : PGraph) (n t : Nat) :
    ((∃ fuel, resultEmitter g fuel n = some t) ↔ ReachesTerminal g n t)
    ∧ (g.outputs n = [] →
        resultEmitter g 1 n = some n ∧ ReachesTerminal g n n) := by
  constructor
  · constructor
    · rintro ⟨fuel, hf⟩
      exact resultEmitter_sound g fuel n t hf
    · exact resultEmitter_complete g n t
  · intro hout
    exact ⟨by rw [resultEmitter, hout], ReachesTerminal.here n hout⟩

/-- A two-node chain 0 → 1 for exercising terminal resolution. -/
def sampleChainGraph : PGraph :=
  ⟨fun _ => false, fun _ => [], fun n => if n = 0 then [(0, 1)] else [], 0⟩

/-- Witness for `resultEmitter_terminal_spec`: in the chain 0 → 1, node 0
resolves to node 1, and the sink node 1 resolves to itself. -/
theorem resultEmitter_terminal_spec_witness :
    ReachesTerminal sampleChainGraph 0 1
    ∧ resultEmitter sampleChainGraph 1 1 = some 1 := by
  refine ⟨(resultEmitter_terminal_spec sampleChainGraph 0 1).1.mp ⟨2, by decide⟩, ?_⟩
  exact ((resultEmitter_terminal_spec sampleChainGraph 1 1).2 (by decide)).1

/-! ## Configuration and worker-construction theorems -/

/-- C8 counterexample: `set_backend("bogus")` stores a value outside the
enumerated set and raises nothing, and the initialization check does not run
again once a backend value is set (it returns early), so no configuration
error is ever raised for a programmatically set invalid backend. -/
theorem set_backend_unvalidated :
    set_backend (some "multiprocessing") "bogus" = Except.ok (some "bogus")
    ∧ validBackends.contains "bogus" = false
    ∧ initBackend (some "bogus") none = Except.ok (some "bogus") := by
  exact ⟨rfl, by decide, rfl⟩

/-- C8 (amended): at first configuration access (backend global still unset),
a backend value sourced from the environment variable that lies outside the
enumerated set raises the configuration error, and a value inside the set
raises no error; the check runs only at that first access — once a (truthy)
backend value is set, initialization returns early without validating — and
the programmatic setter `set_backend` stores any value without raising. -/
theorem backend_validation_at_init (v : String) :
    (validBackends.contains v = false →
      initBackend none (some v)
        = Except.error ("Emitter backend is not valid: " ++ v))
    ∧ (validBackends.contains v = true →
      initBackend none (some v) = Except.ok (some v))
    ∧ (∀ cur : Option String, truthy cur = true →
        initBackend cur (some v) = Except.ok cur)
    ∧ (∀ cur : Option String, set_backend cur v = Except.ok (some v)) := by
  refine ⟨?_, ?_, ?_, fun _ => rfl⟩
  · intro hv
    have hmem : v ∉ validBackends := by simpa using hv
    simp [initBackend, truthy, hmem]
  · intro hv
    have hmem : v ∈ validBackends := by simpa using hv
    simp [initBackend, truthy, hmem]
  · intro cur hcur
    simp [initBackend, hcur]

/-- Witness for `backend_validation_at_init` at the invalid value `"bogus"`
and the valid value `"threading"`. -/
theorem backend_validation_at_init_witness :
    validBackends.contains "bogus" = false
    ∧ initBackend none (some "bogus")
        = Except.error ("Emitter backend is not valid: " ++ "bogus")
    ∧ initBackend none (some "threading") = Except.ok (some "threading") := by
  exact ⟨by decide, (backend_validation_at_init "bogus").1 (by decide),
    (backend_validation_at_init "threading").2.1 (by decide)⟩

/-- C10: with the environment variable unset at first configuration access,
the backend defaults to `"multiprocessing"` and no configuration error is
raised. -/
theorem default_backend_multiprocessing :
    initBackend none none = Except.ok (some "multiprocessing")
    ∧ validBackends.contains "multiprocessing" = true := by
  exact ⟨rfl, by decide⟩

/-- C9: node construction accepts a worker count of 0 without any error path
(`emitterInit` is total and creates `range(0)` = no workers), and with an
empty worker set `_output_complete` is vacuously true even though no worker
has run; in general the worker count is the `processes` option, defaulting
to 1. -/
theorem zero_worker_init :
    emitterInit (some 0) = []
    ∧ outputComplete (emitterInit (some 0)) = true
    ∧ (∀ p : Option Nat, (emitterInit p).length = p.getD 1)
    ∧ emitterInit none = [⟨false⟩] := by
  refine ⟨rfl, rfl, ?_, rfl⟩
  intro p
  simp [emitterInit]

/-! ## Run-loop theorems -/

theorem loopTrace_setFlag_decomp [DecidableEq α] (bound : List Bool)
    (obss : List (IterObs α)) (h : Event.setFlag ∈ loopTrace bound obss) :
    ∃ (pre : List (Event α)) (ups : List Bool) (d : List (List α)),
      loopTrace bound obss
        = pre ++ [Event.observe ups, Event.drain d, Event.teardown, Event.setFlag]
      ∧ allInputsComplete bound ups = true
      ∧ Event.teardown ∉ pre ∧ Event.setFlag ∉ pre
      ∧ (loopTrace bound obss).count Event.teardown = 1
      ∧ (loopTrace bound obss).count Event.setFlag = 1 := by
  induction obss with
  | nil => simp [loopTrace] at h
  | cons obs rest ih =>
    by_cases hac : allInputsComplete bound obs.ups = true
    · refine ⟨[], obs.ups, obs.drained.take bound.length, ?_, hac, ?_, ?_, ?_, ?_⟩ <;>
        simp [loopTrace, hac]
    · rw [loopTrace] at h
      rw [if_neg hac] at h
      simp only [List.mem_cons] at h
      rcases h with h | h | h | h
      · exact absurd h (by simp)
      · exact absurd h (by simp)
      · exact absurd h (by simp)
      · obtain ⟨pre, ups, d, heq, hcomp, hnt, hnf, hc1, hc2⟩ := ih h
        refine ⟨Event.observe obs.ups :: Event.drain (obs.drained.take bound.length)
            :: Event.backoff :: pre, ups, d, ?_, hcomp, ?_, ?_, ?_, ?_⟩
        · rw [loopTrace, if_neg hac, heq]
          simp
        · simp [hnt]
        · simp [hnf]
        · rw [loopTrace, if_neg hac]
          simp [List.count_cons, hc1]
        · rw [loopTrace, if_neg hac]
          simp [List.count_cons, hc2]

/-- C1: a worker never sets its completion flag before it has observed all
bound upstream nodes output-complete (`allInputsComplete` true at the last
poll) and then performed one further drain pass over all input queues in
registration order; teardown runs exactly once, after that final drain and
before the flag is set, and the flag is set exactly once, as the last
event. -/
theorem worker_completion_protocol [DecidableEq α] (bound : List Bool)
    (obss : List (IterObs α)) (h : Event.setFlag ∈ workerRun bound obss) :
    ∃ (pre : List (Event α)) (ups : List Bool) (d : List (List α)),
      workerRun bound obss
        = pre ++ [Event.observe ups, Event.drain d, Event.teardown, Event.setFlag]
      ∧ allInputsComplete bound ups = true
      ∧ Event.teardown ∉ pre ∧ Event.setFlag ∉ pre
      ∧ (workerRun bound obss).count Event.teardown = 1
      ∧ (workerRun bound obss).count Event.setFlag = 1 := by
  have hloop : Event.setFlag ∈ loopTrace bound obss := by
    rcases List.mem_cons.mp h with h' | h'
    · exact absurd h' (by simp)
    · exact h'
  obtain ⟨pre, ups, d, heq, hcomp, hnt, hnf, hc1, hc2⟩ :=
    loopTrace_setFlag_decomp bound obss hloop
  refine ⟨Event.setup :: pre, ups, d, ?_, hcomp, ?_, ?_, ?_, ?_⟩
  · rw [workerRun, heq]; simp
  · simp [hnt]
  · simp [hnf]
  · rw [workerRun]; simp [List.count_cons, hc1]
  · rw [workerRun]; simp [List.count_cons, hc2]

/-- Witness for `worker_completion_protocol`: one bound input; the first pass
finds the upstream incomplete (backoff), the second finds it complete, drains
the value 5, tears down and sets the flag. -/
theorem worker_completion_protocol_witness :
    Event.setFlag ∈ workerRun [true] [IterObs.mk [false] [[]], IterObs.mk [true] [[(5 : Nat)]]]
    ∧ ∃ (pre : List (Event Nat)) (ups : List Bool) (d : List (List Nat)),
      workerRun [true] [IterObs.mk [false] [[]], IterObs.mk [true] [[(5 : Nat)]]]
        = pre ++ [Event.observe ups, Event.drain d, Event.teardown, Event.setFlag]
      ∧ allInputsComplete [true] ups = true
      ∧ Event.teardown ∉ pre ∧ Event.setFlag ∉ pre
      ∧ (workerRun [true] [IterObs.mk [false] [[]],
          IterObs.mk [true] [[(5 : Nat)]]]).count Event.teardown = 1
      ∧ (workerRun [true] [IterObs.mk [false] [[]],
          IterObs.mk [true] [[(5 : Nat)]]]).count Event.setFlag = 1 := by
  exact ⟨by decide, worker_completion_protocol [true] _ (by decide)⟩

/-- C7: a worker of a node with no input queues observes `upstream_done`
vacuously true on its very first poll and exits the loop after exactly one
iteration — setup, one (empty) drain pass, teardown, flag — never sleeping
the backoff interval. -/
theorem no_input_single_pass (obs : IterObs α) (rest : List (IterObs α)) :
    workerRun ([] : List Bool) (obs :: rest)
      = [Event.setup, Event.observe obs.ups, Event.drain ([] : List (List α)),
         Event.teardown, Event.setFlag]
    ∧ allInputsComplete [] obs.ups = true
    ∧ Event.backoff ∉ workerRun ([] : List Bool) (obs :: rest) := by
  have hac : allInputsComplete ([] : List Bool) obs.ups = true := rfl
  have htr : workerRun ([] : List Bool) (obs :: rest)
      = [Event.setup, Event.observe obs.ups, Event.drain ([] : List (List α)),
         Event.teardown, Event.setFlag] := by
    rw [workerRun, loopTrace, if_pos hac]
    rfl
  refine ⟨htr, hac, ?_⟩
  rw [htr]
  simp

end QPipe
